import Mathlib

/-!
# Verification of the `alog` log-file anonymizer

A shallow embedding of the core of `src/lib.rs` (the crate `alog`):

* the per-line pipeline `replace_remote_address` (token scan, trim,
  address classification, auth-user redaction, thorough replacement),
* the byte-slice substring replacer `Replace::replace` together with its
  search routine `Replace::bmsearch` and skip table `bad_char_table`,
* the anchor search performed through the regex `" \[[0-9]{1,2}/"`.

Bytes are modelled as `Nat` (all source values are `u8`, and no byte
arithmetic overflows, so the values coincide).  A Rust slice-index panic is
modelled by returning `none`; the per-line pipeline therefore produces an
`Option (List Nat)`, where `some out` is the byte sequence written to the
sink for that line and `none` marks a panic.

The classifier calls `String::from_utf8_lossy` and the `std::net` address
parsers; those are external library routines, embedded here at byte level
following their documented grammar (Rust's `core::net::parser` operates
directly on the byte slice, so a byte-level embedding is exact).
-/

namespace Alog

/-- `u8::is_ascii_whitespace`: space, tab, newline, form feed, carriage return. -/
def isWs (b : Nat) : Bool :=
  b == 32 || b == 9 || b == 10 || b == 12 || b == 13

/-- ASCII decimal digit. -/
def isDigit (b : Nat) : Bool := 48 ≤ b && b ≤ 57

/-- ASCII hexadecimal digit (`char::to_digit(16)` accepts `0-9a-fA-F`). -/
def isHexDigit (b : Nat) : Bool :=
  (48 ≤ b && b ≤ 57) || (97 ≤ b && b ≤ 102) || (65 ≤ b && b ≤ 70)

/-- `Iterator::position`: index of the first element satisfying `p`. -/
def findIdxA (p : Nat → Bool) : List Nat → Option Nat
  | [] => none
  | b :: r => if p b then some 0 else (findIdxA p r).map Nat.succ

/-- Leading-whitespace trim of a line, from `replace_remote_address`:
`buf.iter().position(|&x| !x.is_ascii_whitespace()).unwrap_or(0)` bytes are
drained from the front. -/
def trimLine (l : List Nat) : List Nat :=
  l.drop ((findIdxA (fun b => !isWs b) l).getD 0)

/-- Index of the first ASCII-whitespace byte of the line (the token scan of
`replace_remote_address`). -/
def firstWs (l : List Nat) : Option Nat :=
  findIdxA isWs l

/-- UTF-8 replacement character U+FFFD as its UTF-8 bytes. -/
def fffd : List Nat := [0xEF, 0xBF, 0xBD]

/-- UTF-8 continuation byte `0x80..=0xBF`. -/
def isCont (b : Nat) : Bool := 0x80 ≤ b && b ≤ 0xBF

/-- Allowed second byte of a three-byte UTF-8 sequence with lead `b`. -/
def snd3Ok (b c : Nat) : Bool :=
  if b == 0xE0 then 0xA0 ≤ c && c ≤ 0xBF
  else if b == 0xED then 0x80 ≤ c && c ≤ 0x9F
  else isCont c

/-- Allowed second byte of a four-byte UTF-8 sequence with lead `b`. -/
def snd4Ok (b c : Nat) : Bool :=
  if b == 0xF0 then 0x90 ≤ c && c ≤ 0xBF
  else if b == 0xF4 then 0x80 ≤ c && c ≤ 0x8F
  else isCont c

/-- `String::from_utf8_lossy`, at byte level: well-formed sequences are
copied verbatim, each maximal invalid subpart is replaced by U+FFFD
(following the `error_len` rules of `str::from_utf8`: an invalid lead or an
invalid byte after a valid prefix consumes the prefix scanned so far; a
truncated sequence at end of input yields a single U+FFFD). -/
def utf8Lossy : List Nat → List Nat
  | [] => []
  | b :: r =>
    if b ≤ 0x7F then b :: utf8Lossy r
    else if b < 0xC2 then fffd ++ utf8Lossy r
    else if b ≤ 0xDF then
      match r with
      | [] => fffd
      | c :: r2 => if isCont c then b :: c :: utf8Lossy r2 else fffd ++ utf8Lossy (c :: r2)
    else if b ≤ 0xEF then
      match r with
      | [] => fffd
      | c :: r2 =>
        if snd3Ok b c then
          match r2 with
          | [] => fffd
          | d :: r3 =>
            if isCont d then b :: c :: d :: utf8Lossy r3
            else fffd ++ utf8Lossy (d :: r3)
        else fffd ++ utf8Lossy (c :: r2)
    else if b ≤ 0xF4 then
      match r with
      | [] => fffd
      | c :: r2 =>
        if snd4Ok b c then
          match r2 with
          | [] => fffd
          | d :: r3 =>
            if isCont d then
              match r3 with
              | [] => fffd
              | e :: r4 =>
                if isCont e then b :: c :: d :: e :: utf8Lossy r4
                else fffd ++ utf8Lossy (e :: r4)
            else fffd ++ utf8Lossy (d :: r3)
        else fffd ++ utf8Lossy (c :: r2)
    else fffd ++ utf8Lossy r

/-- Numeric value of a list of ASCII decimal digit bytes. -/
def digitsVal (l : List Nat) : Nat :=
  l.foldl (fun a b => a * 10 + (b - 48)) 0

/-- One octet of `Ipv4Addr::from_str` (`read_number(10, Some(3), false)` into
`u8`): a maximal non-empty run of at most three decimal digits, no leading
zero unless the octet is the single digit `0`, value at most 255.  Returns
the unconsumed rest, or `none` (consuming nothing, as `read_atomically`). -/
def parseOctet (l : List Nat) : Option (List Nat) :=
  let ds := l.takeWhile isDigit
  if ds.length == 0 then none
  else if 3 < ds.length then none
  else if 1 < ds.length && ds.headD 0 == 48 then none
  else if 255 < digitsVal ds then none
  else some (l.drop ds.length)

/-- `Parser::read_ipv4_addr`: four octets separated by `.`; returns the
unconsumed rest (atomic on failure). -/
def parseIpv4Suffix (l : List Nat) : Option (List Nat) := do
  let r1 ← parseOctet l
  match r1 with
  | 46 :: r1b =>
    let r2 ← parseOctet r1b
    match r2 with
    | 46 :: r2b =>
      let r3 ← parseOctet r2b
      match r3 with
      | 46 :: r3b => parseOctet r3b
      | _ => none
    | _ => none
  | _ => none

/-- `s.parse::<Ipv4Addr>()`: the whole input must be consumed. -/
def ipv4Parse (l : List Nat) : Bool :=
  parseIpv4Suffix l == some []

/-- One hexadecimal group of `Ipv6Addr::from_str`
(`read_number(16, Some(4), true)` into `u16`): one to four hex digits. -/
def readHexNum (l : List Nat) : Option (List Nat) :=
  let ds := l.takeWhile isHexDigit
  if ds.length == 0 then none
  else if 4 < ds.length then none
  else some (l.drop ds.length)

/-- `Parser::read_separator`: for group index `i > 0` require a `:` before
the inner item; atomic. -/
def readSep (i : Nat) (inner : List Nat → Option (List Nat)) (l : List Nat) :
    Option (List Nat) :=
  if i == 0 then inner l
  else
    match l with
    | 58 :: r => inner r
    | _ => none

/-- `read_groups` of `Ipv6Addr::from_str`: reads up to `limit` groups,
trying a trailing embedded IPv4 address (worth two groups) whenever at
least two slots remain.  Returns the number of groups read, whether an
embedded IPv4 address ended the groups, and the unconsumed rest.  The fuel
argument equals `limit - i` at every call. -/
def readGroupsGo (limit : Nat) : Nat → Nat → List Nat → Nat × Bool × List Nat
  | 0, i, l => (i, false, l)
  | fuel + 1, i, l =>
    if i < limit then
      match (if i + 1 < limit then readSep i parseIpv4Suffix l else none) with
      | some rest => (i + 2, true, rest)
      | none =>
        match readSep i readHexNum l with
        | some rest => readGroupsGo limit fuel (i + 1) rest
        | none => (i, false, l)
    else (i, false, l)

/-- `s.parse::<Ipv6Addr>()`: up to eight head groups; a full head of eight
groups must consume the input; otherwise an embedded IPv4 address may not
precede `::`, a literal `::` follows, and the tail holds at most
`8 - (head + 1)` groups and must consume the rest. -/
def ipv6Parse (l : List Nat) : Bool :=
  match readGroupsGo 8 8 0 l with
  | (hs, hipv4, rest) =>
    if hs == 8 then rest == []
    else if hipv4 then false
    else
      match rest with
      | 58 :: 58 :: r2 =>
        let limit := 8 - (hs + 1)
        match readGroupsGo limit limit 0 r2 with
        | (_, _, rest2) => rest2 == []
      | _ => false

/-! ## The substring replacer (`impl Replace for [u8]`) -/

namespace Replace

/-- `bad_char_table` lookup, as the skip distance for byte `b`:
the table holds `n` everywhere, overwritten by `n - i - 1` for each byte
`pattern[i]` with `i < n - 1` (later writes win, so the last occurrence
among the first `n - 1` bytes decides).  Equivalently: one plus the index
of `b` in the reversed first `n - 1` bytes, or `n` when absent. -/
def badCharTable (pat : List Nat) (b : Nat) : Nat :=
  match ((pat.take (pat.length - 1)).reverse).findIdx? (· == b) with
  | some j => j + 1
  | none => pat.length

/-- The inner right-to-left comparison loop of `bmsearch`:
`while pattern[j] == self[i + j] { if j == 0 { true } ; j -= 1 }`. -/
def bmCheck (h pat : List Nat) (i : Nat) : Nat → Bool
  | 0 => pat.getD 0 0 == h.getD i 0
  | j + 1 =>
    if pat.getD (j + 1) 0 == h.getD (i + (j + 1)) 0 then bmCheck h pat i j
    else false

/-- The outer loop of `bmsearch`: `while i < m - n`, test the window at
`i`, then advance by `bad_char_table[self[i + n - 1]]`.  The fuel bounds
the iteration count; `h.length + 1` is always sufficient because the
advance is positive whenever the pattern is non-empty. -/
def bmsearchGo (h pat : List Nat) : Nat → Nat → List Nat → List Nat
  | 0, _, acc => acc
  | fuel + 1, i, acc =>
    if i < h.length - pat.length then
      let acc' := if bmCheck h pat i (pat.length - 1) then acc ++ [i] else acc
      bmsearchGo h pat fuel (i + badCharTable pat (h.getD (i + pat.length - 1) 0)) acc'
    else acc

/-- `<[u8] as Replace>::bmsearch`. -/
def bmsearch (h pat : List Nat) : Option (List Nat) :=
  if pat.length == 0 || h.length < pat.length then none
  else
    let idxs := bmsearchGo h pat (h.length + 1) 0 []
    if idxs == [] then none else some idxs

/-- The reassembly loop of `replace`: for each match `m`, copy
`&self[i..m]`, emit the replacement, and set `i` to `m + old.len()`;
finally copy `&self[i..]`.  A Rust slice expression `&self[a..b]` panics
when `a > b` or `b > len`; that is modelled by `none`. -/
def replaceGo (h new : List Nat) (oldLen : Nat) : Nat → List Nat → Option (List Nat)
  | i, [] =>
    if i ≤ h.length then some (h.drop i) else none
  | i, m :: ms =>
    if i ≤ m && m ≤ h.length then
      (replaceGo h new oldLen (m + oldLen) ms).map
        (fun t => (h.drop i).take (m - i) ++ new ++ t)
    else none

/-- `<[u8] as Replace>::replace`: when `bmsearch` reports matches they are
substituted; otherwise the haystack is returned unchanged. -/
def replace (h old new : List Nat) : Option (List Nat) :=
  match bmsearch h old with
  | some ms => replaceGo h new old.length 0 ms
  | none => some h

end Replace

/-! ## The anchor regex `" \[[0-9]{1,2}/"` and the line pipeline -/

/-- Does the regex `" \[[0-9]{1,2}/"` match `l` starting exactly at `p`? -/
def reMatchAt (l : List Nat) (p : Nat) : Bool :=
  (l.get? p == some 32) && (l.get? (p + 1) == some 91) &&
    (match l.get? (p + 2) with
     | some d => isDigit d
     | none => false) &&
    ((l.get? (p + 3) == some 47) ||
      ((match l.get? (p + 3) with
        | some d => isDigit d
        | none => false) && (l.get? (p + 4) == some 47)))

/-- Scan for the leftmost regex match starting at or after `p`; the fuel
is `l.length + 1 - p` at every call, so every start position up to
`l.length` is examined. -/
def reFindGo (l : List Nat) : Nat → Nat → Option Nat
  | 0, _ => none
  | fuel + 1, p => if reMatchAt l p then some p else reFindGo l fuel (p + 1)

/-- `RE.find_at(&buf, i).map(|m| m.start())` for the anchor regex. -/
def reFind (l : List Nat) (i : Nat) : Option Nat :=
  reFindGo l (l.length + 1 - i) i

/-- The replacement strings and behaviour flags of `alog::Config`.  The
three replacement strings are carried as their byte sequences.  (`flush`
only forces sink flushes and never changes the bytes written, so it is not
represented.) -/
structure Config where
  ipv4 : List Nat
  ipv6 : List Nat
  host : List Nat
  skip : Bool
  authuser : Bool
  trim : Bool
  thorough : Bool
  optimize : Bool

/-- Byte sequence of an ASCII string literal. -/
def strB (s : String) : List Nat := s.data.map Char.toNat

/-- `Config::default()`: `127.0.0.1` / `::1` / `localhost`, `trim` and
`optimize` on, everything else off. -/
def defaultConfig : Config :=
  { ipv4 := strB "127.0.0.1"
    ipv6 := strB "::1"
    host := strB "localhost"
    skip := false
    authuser := false
    trim := true
    thorough := false
    optimize := true }

/-- `write_or_replace`: replace every `needle` occurrence in `slice` when
`should_replace` holds and the needle is non-empty, else copy verbatim. -/
def writeOrReplace (slice needle repl : List Nat) (shouldReplace : Bool) :
    Option (List Nat) :=
  if shouldReplace && !(needle.isEmpty) then Replace.replace slice needle repl
  else some slice

/-- The line buffer after the optional leading-whitespace trim. -/
def bufOf (cfg : Config) (line : List Nat) : List Nat :=
  if cfg.trim then trimLine line else line

/-- The tail of the line-processing loop after the replacement string has
been chosen: the auth-user branch (fixed-window shortcut, anchor search,
redaction marker `" - -"`) and the thorough branch. -/
def emitLine (cfg : Config) (buf : List Nat) (i : Nat) (needle repl : List Nat) :
    Option (List Nat) :=
  if cfg.authuser then
    if cfg.optimize && decide (i + 6 ≤ buf.length)
        && ((buf.drop (i + 3)).take 3 == [45, 32, 91]) then
      (writeOrReplace (buf.drop i) needle repl cfg.thorough).map (fun t => repl ++ t)
    else
      match reFind buf i with
      | some m =>
        (writeOrReplace (buf.drop m) needle repl cfg.thorough).map
          (fun t => repl ++ [32, 45, 32, 45] ++ t)
      | none => (writeOrReplace (buf.drop i) needle repl cfg.thorough).map (fun t => repl ++ t)
  else if cfg.thorough then
    (writeOrReplace (buf.drop i) needle repl true).map (fun t => repl ++ t)
  else some (repl ++ buf.drop i)

/-- One iteration of the `'lines` loop of `replace_remote_address`, for a
single line buffer (as produced by `read_until(b'\n')`, so including any
terminator).  `some out` is the byte sequence written to the sink for this
line (`some []` when the loop writes nothing, i.e. when no whitespace byte
exists or the empty-token skip fires); `none` is a panic inside the
thorough replacer. -/
def processLine (cfg : Config) (line : List Nat) : Option (List Nat) :=
  let buf := bufOf cfg line
  match firstWs buf with
  | none => some []
  | some i =>
    let needle := utf8Lossy (buf.take i)
    if ipv4Parse needle then emitLine cfg buf i needle cfg.ipv4
    else if ipv6Parse needle then emitLine cfg buf i needle cfg.ipv6
    else if needle.isEmpty && cfg.skip then some []
    else emitLine cfg buf i needle cfg.host

/-- The classification chain of `replace_remote_address`'s `match` for a
non-empty token (the `continue` guard `s.is_empty() && skip` cannot fire):
the IPv4 replacement if the decoded token parses as IPv4, else the IPv6
replacement if it parses as IPv6, else the host replacement. -/
def classRepl (cfg : Config) (d : List Nat) : List Nat :=
  if ipv4Parse d then cfg.ipv4 else if ipv6Parse d then cfg.ipv6 else cfg.host

/-! ## Theorems -/

section Lemmas

/-- `findIdxA` finds nothing exactly when no element satisfies `p`. -/
theorem findIdxA_none_all (p : Nat → Bool) :
    ∀ l, findIdxA p l = none → ∀ x ∈ l, p x = false := by
  intro l
  induction l with
  | nil => intro _ x hx; cases hx
  | cons b r ih =>
    intro h x hx
    rw [findIdxA] at h
    by_cases hb : p b = true
    · rw [if_pos hb] at h; cases h
    · rw [if_neg hb] at h
      rcases List.mem_cons.mp hx with rfl | hx2
      · exact Bool.eq_false_iff.mpr hb
      · exact ih (Option.map_eq_none'.mp h) x hx2

/-- A found index witnesses a satisfying element. -/
theorem findIdxA_any (p : Nat → Bool) :
    ∀ l j, findIdxA p l = some j → l.any p = true := by
  intro l
  induction l with
  | nil => intro j h; cases h
  | cons b r ih =>
    intro j h
    rw [findIdxA] at h
    by_cases hb : p b = true
    · simp [List.any_cons, hb]
    · rw [if_neg hb] at h
      match hj : findIdxA p r with
      | none => rw [hj] at h; cases h
      | some j0 => simp [List.any_cons, ih j0 hj]

/-- The index returned by `findIdxA` is in range and hits `p`. -/
theorem findIdxA_some_spec (p : Nat → Bool) :
    ∀ l j, findIdxA p l = some j → j < l.length ∧ p (l.getD j 0) = true := by
  intro l
  induction l with
  | nil => intro j h; cases h
  | cons b r ih =>
    intro j h
    rw [findIdxA] at h
    by_cases hb : p b = true
    · rw [if_pos hb] at h
      cases h
      exact ⟨Nat.succ_pos _, by simpa using hb⟩
    · rw [if_neg hb] at h
      match hj : findIdxA p r with
      | none => rw [hj] at h; cases h
      | some j0 =>
        rw [hj] at h
        cases h
        obtain ⟨h1, h2⟩ := ih j0 hj
        exact ⟨Nat.succ_lt_succ h1, by simpa using h2⟩

/-- `findIdxA` over an all-`false` prefix shifts the found index. -/
theorem findIdxA_append_some (p : Nat → Bool) (ys : List Nat) (j : Nat)
    (hy : findIdxA p ys = some j) :
    ∀ xs, (∀ b ∈ xs, p b = false) → findIdxA p (xs ++ ys) = some (xs.length + j) := by
  intro xs
  induction xs with
  | nil => intro _; simpa using hy
  | cons a xs ih =>
    intro hall
    have ha : p a = false := hall a (List.mem_cons_self a xs)
    rw [List.cons_append, findIdxA, ha]
    rw [ih (fun b hb => hall b (List.mem_cons_of_mem a hb))]
    simp [Nat.succ_add]

/-- A lossily decoded non-empty byte sequence is non-empty. -/
theorem utf8Lossy_ne_nil (b : Nat) (r : List Nat) : utf8Lossy (b :: r) ≠ [] := by
  rw [utf8Lossy.eq_def]
  dsimp only
  repeat' split
  all_goals simp [fffd]

/-- Lossy decoding is the identity on ASCII bytes. -/
theorem utf8Lossy_ascii :
    ∀ l : List Nat, (∀ b ∈ l, b ≤ 0x7F) → utf8Lossy l = l := by
  intro l
  induction l with
  | nil => intro _; rfl
  | cons b r ih =>
    intro h
    rw [utf8Lossy.eq_def]
    dsimp only
    rw [if_pos (h b (List.mem_cons_self b r)),
      ih (fun x hx => h x (List.mem_cons_of_mem b hx))]

end Lemmas

/-- **C1.** With `authuser` and `thorough` off, every line whose scanned
buffer has a first whitespace byte at `i > 0` (a non-empty leading token)
is written as the replacement selected by classifying the lossily decoded
token — the IPv4 replacement if it parses as IPv4, else the IPv6
replacement if it parses as IPv6, else the host replacement (so in
particular tokens with invalid UTF-8, which decode lossily and fail both
parses) — followed, unchanged, by the rest of the buffer from the first
whitespace byte on. -/
theorem C1_classified_replacement (cfg : Config) (line : List Nat) (i : Nat)
    (hauth : cfg.authuser = false) (hth : cfg.thorough = false)
    (hi : firstWs (bufOf cfg line) = some i) (hpos : 0 < i) :
    processLine cfg line =
      some (classRepl cfg (utf8Lossy ((bufOf cfg line).take i)) ++
            (bufOf cfg line).drop i) := by
  have hbuf : bufOf cfg line ≠ [] := by
    intro he
    rw [he] at hi
    cases hi
  have htk : (bufOf cfg line).take i ≠ [] := by
    rw [Ne, List.take_eq_nil_iff]
    push_neg
    exact ⟨Nat.pos_iff_ne_zero.mp hpos, hbuf⟩
  have hne : utf8Lossy ((bufOf cfg line).take i) ≠ [] := by
    match he : (bufOf cfg line).take i with
    | [] => exact absurd he htk
    | c :: r => exact utf8Lossy_ne_nil c r
  have hemp : (utf8Lossy ((bufOf cfg line).take i)).isEmpty = false := by
    match he : utf8Lossy ((bufOf cfg line).take i) with
    | [] => exact absurd he hne
    | c :: r => rfl
  simp only [processLine, hi]
  by_cases h4 : ipv4Parse (utf8Lossy ((bufOf cfg line).take i)) <;>
    by_cases h6 : ipv6Parse (utf8Lossy ((bufOf cfg line).take i)) <;>
      simp [classRepl, emitLine, hauth, hth, h4, h6, hemp]

/-- Witness for C1, at the spec's invalid-UTF-8 example: the line
`0x00 0x9F 0x92 0x96 "  XxX"` decodes lossily, classifies as host, and is
written as `"localhost XxX"`. -/
theorem C1_witness :
    processLine defaultConfig [0, 159, 146, 150, 32, 88, 120, 88] =
      some (strB "localhost XxX") := by
  have h := C1_classified_replacement defaultConfig
    [0, 159, 146, 150, 32, 88, 120, 88] 4 rfl rfl (by decide) (by decide)
  rw [h]
  decide

/-- **C5 (amended).** With redaction enabled and `thorough` off, for every
line whose buffer has a non-empty leading token ending at `i` and whose
anchor search finds the date anchor at `m`, *and on which the optimize
window does not fire* (`optimize` off, or the buffer shorter than `i + 6`,
or the three bytes at `i+3..i+6` not equal to `"- ["`), the output is the
classified replacement, the fixed marker `" - -"`, and the buffer from the
anchor on: everything between the token and the anchor is replaced by the
marker. -/
theorem C5_amended_redaction (cfg : Config) (line : List Nat) (i m : Nat)
    (hauth : cfg.authuser = true) (hth : cfg.thorough = false)
    (hi : firstWs (bufOf cfg line) = some i) (hpos : 0 < i)
    (hwin : ¬(cfg.optimize = true ∧ i + 6 ≤ (bufOf cfg line).length ∧
        ((bufOf cfg line).drop (i + 3)).take 3 = [45, 32, 91]))
    (hre : reFind (bufOf cfg line) i = some m) :
    processLine cfg line =
      some (classRepl cfg (utf8Lossy ((bufOf cfg line).take i)) ++
            [32, 45, 32, 45] ++ (bufOf cfg line).drop m) := by
  have hbuf : bufOf cfg line ≠ [] := by
    intro he
    rw [he] at hi
    cases hi
  have htk : (bufOf cfg line).take i ≠ [] := by
    rw [Ne, List.take_eq_nil_iff]
    push_neg
    exact ⟨Nat.pos_iff_ne_zero.mp hpos, hbuf⟩
  have hne : utf8Lossy ((bufOf cfg line).take i) ≠ [] := by
    match he : (bufOf cfg line).take i with
    | [] => exact absurd he htk
    | c :: r => exact utf8Lossy_ne_nil c r
  have hemp : (utf8Lossy ((bufOf cfg line).take i)).isEmpty = false := by
    match he : utf8Lossy ((bufOf cfg line).take i) with
    | [] => exact absurd he hne
    | c :: r => rfl
  have hwinb : (cfg.optimize && decide (i + 6 ≤ (bufOf cfg line).length)
      && (((bufOf cfg line).drop (i + 3)).take 3 == [45, 32, 91])) = false := by
    by_cases ho : cfg.optimize = true
    · by_cases hl : i + 6 ≤ (bufOf cfg line).length
      · by_cases hv : ((bufOf cfg line).drop (i + 3)).take 3 = [45, 32, 91]
        · exact absurd ⟨ho, hl, hv⟩ hwin
        · simp [hv]
      · simp [hl]
    · simp [Bool.eq_false_iff.mpr ho]
  simp only [processLine, hi]
  by_cases h4 : ipv4Parse (utf8Lossy ((bufOf cfg line).take i)) <;>
    by_cases h6 : ipv6Parse (utf8Lossy ((bufOf cfg line).take i)) <;>
      simp [classRepl, emitLine, writeOrReplace, hauth, hth, h4, h6, hemp, hwinb, hre]

/-- Witness for the amended C5, at the spec's redaction example: the
default-configuration line with auth-user `"frank"` is redacted to
`"127.0.0.1 - - [10/Oct/2000] z"`. -/
theorem C5_witness :
    processLine { defaultConfig with authuser := true }
        (strB "8.8.8.8 - frank [10/Oct/2000] z") =
      some (strB "127.0.0.1 - - [10/Oct/2000] z") := by
  have h := C5_amended_redaction { defaultConfig with authuser := true }
    (strB "8.8.8.8 - frank [10/Oct/2000] z") 7 15 rfl rfl (by decide) (by decide)
    (by decide) (by decide)
  rw [h]
  decide

/-- **C6 (amended).** With redaction enabled, the outputs with
`optimize` on and off are byte-for-byte equal for every line on which the
fixed-window check does not fire (no token, or the buffer is shorter than
`i + 6`, or the three bytes at `i+3..i+6` after the token are not
`"- ["`); when the window fires, the anchor search is skipped and the
outputs may differ. -/
theorem C6_amended_optimize_neutral (cfg : Config) (line : List Nat)
    (hauth : cfg.authuser = true)
    (hwin : ∀ i, firstWs (bufOf cfg line) = some i →
        ¬(i + 6 ≤ (bufOf cfg line).length ∧
          ((bufOf cfg line).drop (i + 3)).take 3 = [45, 32, 91])) :
    processLine { cfg with optimize := true } line =
      processLine { cfg with optimize := false } line := by
  have hb : bufOf { cfg with optimize := true } line = bufOf cfg line := rfl
  have hb2 : bufOf { cfg with optimize := false } line = bufOf cfg line := rfl
  simp only [processLine, hb, hb2]
  match hfw : firstWs (bufOf cfg line) with
  | none => rfl
  | some i =>
    have hwinb : (decide (i + 6 ≤ (bufOf cfg line).length)
        && (((bufOf cfg line).drop (i + 3)).take 3 == [45, 32, 91])) = false := by
      by_cases hl : i + 6 ≤ (bufOf cfg line).length
      · by_cases hv : ((bufOf cfg line).drop (i + 3)).take 3 = [45, 32, 91]
        · exact absurd ⟨hl, hv⟩ (hwin i hfw)
        · simp [hv]
      · simp [hl]
    by_cases h4 : ipv4Parse (utf8Lossy ((bufOf cfg line).take i)) <;>
      by_cases h6 : ipv6Parse (utf8Lossy ((bufOf cfg line).take i)) <;>
        simp [emitLine, hauth, h4, h6, hwinb]

/-- Witness for the amended C6: on the spec's redaction example line the
window check does not fire, and the outputs with `optimize` on and off
coincide. -/
theorem C6_witness :
    processLine { { defaultConfig with authuser := true } with optimize := true }
        (strB "8.8.8.8 - frank [10/Oct/2000] z") =
      processLine { { defaultConfig with authuser := true } with optimize := false }
        (strB "8.8.8.8 - frank [10/Oct/2000] z") := by
  refine C6_amended_optimize_neutral { defaultConfig with authuser := true }
    (strB "8.8.8.8 - frank [10/Oct/2000] z") rfl ?_
  intro i hi
  have h7 : firstWs (bufOf { defaultConfig with authuser := true }
      (strB "8.8.8.8 - frank [10/Oct/2000] z")) = some 7 := by decide
  rw [h7] at hi
  injection hi with hii
  subst hii
  decide

/-- **C2.** The substring replacer does not replace every non-overlapping
left-to-right occurrence of the pattern: on the haystack of the crate's own
`bmsearch`/`thorough` tests, the occurrence of `"8.8.8.8"` at offset 37 —
the final alignment, excluded by the search loop's bound `i < m - n` — is a
genuine occurrence (`37 + 7 ≤ 44` and the slice equals the pattern), yet
`bmsearch` reports only `[0, 22]` and `replace` leaves the trailing
occurrence intact. -/
theorem C2_replace_misses_final_occurrence :
    Replace.bmsearch (strB "8.8.8.8 - frank proxy 8.8.8.8 direct 8.8.8.8")
        (strB "8.8.8.8") = some [0, 22] ∧
    ((strB "8.8.8.8 - frank proxy 8.8.8.8 direct 8.8.8.8").drop 37).take 7 =
        strB "8.8.8.8" ∧
    37 + 7 ≤ (strB "8.8.8.8 - frank proxy 8.8.8.8 direct 8.8.8.8").length ∧
    Replace.replace (strB "8.8.8.8 - frank proxy 8.8.8.8 direct 8.8.8.8")
        (strB "8.8.8.8") (strB "127.0.0.1") =
      some (strB "127.0.0.1 - frank proxy 127.0.0.1 direct 8.8.8.8") := by
  refine ⟨by decide, by decide, by decide, by decide⟩

/-- **C3.** After a match at position `p` the search does not resume at
`p + pattern.length`: it advances by the bad-character shift of the
window's last byte (2 for `"8.8.8.8"`), so on `"8.8.8.8.8.8"` it reports
the two overlapping matches `[0, 2]` instead of exactly one match at
offset 0, and the thorough pipeline on the crate's own
`thorough_non_overlapping` test line panics (reassembly slices
`&self[7..2]`) instead of yielding `"... 127.0.0.1.8.8"`. -/
theorem C3_bmsearch_reports_overlapping_matches :
    Replace.bmsearch (strB "8.8.8.8.8.8") (strB "8.8.8.8") = some [0, 2] ∧
    processLine { defaultConfig with thorough := true }
        (strB "8.8.8.8 - frank proxy 8.8.8.8.8.8") = none := by
  refine ⟨by decide, by decide⟩

/-- **C4.** A line containing no ASCII-whitespace byte is not emitted
unchanged when `skip` is off: the scan loop of `replace_remote_address`
falls through without writing anything, so the line `"abc"` (a final line
with no terminator) produces no output at all. -/
theorem C4_no_whitespace_line_dropped :
    processLine defaultConfig (strB "abc") = some [] ∧
    defaultConfig.skip = false ∧ strB "abc" ≠ [] := by
  refine ⟨by decide, rfl, by decide⟩

/-- **C9.** `replace` is not total: on haystack `"8.8.8.8.8.8"` and pattern
`"8.8.8.8"` the reported matches `[0, 2]` violate the running-position
invariant (after the match at 0 the copy position is `0 + 7 = 7 > 2`), so
the slice `&self[7..2]` is reversed and the function panics. -/
theorem C9_replace_panics_on_overlap :
    Replace.bmsearch (strB "8.8.8.8.8.8") (strB "8.8.8.8") = some [0, 2] ∧
    ¬ (0 + (strB "8.8.8.8").length ≤ 2) ∧
    Replace.replace (strB "8.8.8.8.8.8") (strB "8.8.8.8") (strB "XxX") = none := by
  refine ⟨by decide, by decide, by decide⟩

/-- **C5 counterexample.** With redaction enabled under the default
configuration, the line `"8.8.8.8 x - [1/Jan/2000] z"` has its token
followed by a secondary field (`"x"`) and then the date anchor
`" [1/"`, yet the output keeps `"x"`: the optimize window sees `"- ["`
three bytes after the token and skips the redaction entirely, so the
output is not `"127.0.0.1 - - [1/Jan/2000] z"` as the claim requires. -/
theorem C5_cex_optimize_window_hijack :
    processLine { defaultConfig with authuser := true }
        (strB "8.8.8.8 x - [1/Jan/2000] z") =
      some (strB "127.0.0.1 x - [1/Jan/2000] z") ∧
    strB "127.0.0.1 x - [1/Jan/2000] z" ≠ strB "127.0.0.1 - - [1/Jan/2000] z" := by
  refine ⟨by decide, by decide⟩

/-- **C6 counterexample.** The fixed-window check is not a pure
performance shortcut: on `"8.8.8.8 x - [1/Jan/2000] z"` with redaction
enabled, the output with `optimize` on differs from the output with
`optimize` off. -/
theorem C6_cex_optimize_changes_output :
    processLine { defaultConfig with authuser := true, optimize := true }
        (strB "8.8.8.8 x - [1/Jan/2000] z") ≠
      processLine { defaultConfig with authuser := true, optimize := false }
        (strB "8.8.8.8 x - [1/Jan/2000] z") := by
  decide

/-- **C7 counterexample.** A line consisting entirely of ASCII whitespace
does not have all its bytes removed: `position` finds no non-whitespace
byte, `unwrap_or(0)` yields 0, and nothing is drained. -/
theorem C7_cex_all_whitespace_not_trimmed :
    trimLine (strB "  ") = strB "  " ∧ strB "  " ≠ ([] : List Nat) := by
  refine ⟨by decide, by decide⟩

/-- Auxiliary for C8: under the default configuration, a line of the
shape `repl ++ rest` — with `repl` non-empty, whitespace-free, and a fixed
point of the classification, and `rest` beginning with a whitespace
byte — is mapped to itself. -/
theorem processLine_default_fixed (repl rest : List Nat)
    (h1 : ∀ b ∈ repl, isWs b = false) (h2 : repl ≠ [])
    (h3 : firstWs rest = some 0)
    (h4 : classRepl defaultConfig (utf8Lossy repl) = repl) :
    processLine defaultConfig (repl ++ rest) = some (repl ++ rest) := by
  have htrim : bufOf defaultConfig (repl ++ rest) = repl ++ rest := by
    match h2e : repl with
    | [] => exact absurd rfl h2
    | a :: repl2 =>
      have ha : isWs a = false := h1 a (List.mem_cons_self a repl2)
      show trimLine ((a :: repl2) ++ rest) = _
      rw [List.cons_append, trimLine, findIdxA]
      simp [ha]
  have hfw : firstWs (repl ++ rest) = some repl.length := by
    have := findIdxA_append_some isWs rest 0 h3 repl h1
    simpa using this
  have htake : (repl ++ rest).take repl.length = repl := List.take_left repl rest
  have hdrop : (repl ++ rest).drop repl.length = rest := List.drop_left repl rest
  have hskip : defaultConfig.skip = false := rfl
  have hauth : defaultConfig.authuser = false := rfl
  have hth : defaultConfig.thorough = false := rfl
  simp only [processLine, htrim, hfw, htake, hdrop]
  by_cases hv4 : ipv4Parse (utf8Lossy repl)
  · have hre : defaultConfig.ipv4 = repl := by rw [classRepl, if_pos hv4] at h4; exact h4
    simp [emitLine, hv4, hauth, hth, hre, hdrop]
  · by_cases hv6 : ipv6Parse (utf8Lossy repl)
    · have hre : defaultConfig.ipv6 = repl := by
        rw [classRepl, if_neg hv4, if_pos hv6] at h4
        exact h4
      simp [emitLine, hv4, hv6, hauth, hth, hre, hdrop]
    · have hre : defaultConfig.host = repl := by
        rw [classRepl, if_neg hv4, if_neg hv6] at h4
        exact h4
      simp [emitLine, hv4, hv6, hskip, hauth, hth, hre, hdrop]

/-- **C8.** The default pipeline is idempotent per line: whatever it
writes for a line, running it again over that output reproduces the output
unchanged — the replacement strings `127.0.0.1`, `::1` and `localhost`
reclassify to their own class, so replacement is stable under repeated
application. -/
theorem C8_second_pass_identity (line out : List Nat)
    (h : processLine defaultConfig line = some out) :
    processLine defaultConfig out = some out := by
  match hfw : firstWs (bufOf defaultConfig line) with
  | none =>
    simp only [processLine, hfw] at h
    injection h with h2
    subst h2
    decide
  | some i =>
    obtain ⟨hilt, hiws⟩ := findIdxA_some_spec isWs (bufOf defaultConfig line) i hfw
    have hdropc : (bufOf defaultConfig line).drop i =
        (bufOf defaultConfig line).getD i 0 :: (bufOf defaultConfig line).drop (i + 1) := by
      rw [List.drop_eq_getElem_cons hilt, List.getD_eq_getElem?_getD,
        List.getElem?_eq_getElem hilt]
      rfl
    have hrest0 : firstWs ((bufOf defaultConfig line).drop i) = some 0 := by
      rw [hdropc, firstWs, findIdxA, if_pos hiws]
    have hauth : defaultConfig.authuser = false := rfl
    have hth : defaultConfig.thorough = false := rfl
    simp only [processLine, hfw] at h
    by_cases hv4 : ipv4Parse (utf8Lossy ((bufOf defaultConfig line).take i))
    · rw [if_pos hv4] at h
      have hemit : emitLine defaultConfig (bufOf defaultConfig line) i
          (utf8Lossy ((bufOf defaultConfig line).take i)) defaultConfig.ipv4 =
            some (defaultConfig.ipv4 ++ (bufOf defaultConfig line).drop i) := by
        simp [emitLine, hauth, hth]
      rw [hemit] at h
      injection h with h2
      subst h2
      exact processLine_default_fixed defaultConfig.ipv4 _ (by decide) (by decide)
        hrest0 (by decide)
    · rw [if_neg hv4] at h
      by_cases hv6 : ipv6Parse (utf8Lossy ((bufOf defaultConfig line).take i))
      · rw [if_pos hv6] at h
        have hemit : emitLine defaultConfig (bufOf defaultConfig line) i
            (utf8Lossy ((bufOf defaultConfig line).take i)) defaultConfig.ipv6 =
              some (defaultConfig.ipv6 ++ (bufOf defaultConfig line).drop i) := by
          simp [emitLine, hauth, hth]
        rw [hemit] at h
        injection h with h2
        subst h2
        exact processLine_default_fixed defaultConfig.ipv6 _ (by decide) (by decide)
          hrest0 (by decide)
      · rw [if_neg hv6] at h
        have hskipb : ((utf8Lossy ((bufOf defaultConfig line).take i)).isEmpty
            && defaultConfig.skip) = false := by
          simp [show defaultConfig.skip = false from rfl]
        rw [hskipb] at h
        simp only [Bool.false_eq_true, if_false] at h
        have hemit : emitLine defaultConfig (bufOf defaultConfig line) i
            (utf8Lossy ((bufOf defaultConfig line).take i)) defaultConfig.host =
              some (defaultConfig.host ++ (bufOf defaultConfig line).drop i) := by
          simp [emitLine, hauth, hth]
        rw [hemit] at h
        injection h with h2
        subst h2
        exact processLine_default_fixed defaultConfig.host _ (by decide) (by decide)
          hrest0 (by decide)

/-- Witness for C8: the output `"127.0.0.1 x"` of processing
`"8.8.8.8 x"` re-processes to itself. -/
theorem C8_witness :
    processLine defaultConfig (strB "127.0.0.1 x") = some (strB "127.0.0.1 x") :=
  C8_second_pass_identity (strB "8.8.8.8 x") (strB "127.0.0.1 x") (by decide)

/-- **C7 (amended).** The trim step removes the maximal prefix of
ASCII-whitespace bytes whenever the line contains at least one
non-whitespace byte; a line consisting entirely of ASCII whitespace is
left unchanged (`unwrap_or(0)` drains nothing), not emptied. -/
theorem C7_amended_trim (l : List Nat) :
    trimLine l =
      if l.any (fun b => !isWs b) then l.dropWhile isWs else l := by
  induction l with
  | nil => rfl
  | cons b r ih =>
    by_cases hb : isWs b = true
    · have hnb : (!isWs b) = false := by simp [hb]
      rw [trimLine, findIdxA, hnb]
      match hr : findIdxA (fun b => !isWs b) r with
      | none =>
        have hany : r.any (fun b => !isWs b) = false := by
          rw [List.any_eq_false]
          intro x hx
          simp [findIdxA_none_all _ r hr x hx]
        simp [hany, hnb]
      | some j =>
        have hany : r.any (fun b => !isWs b) = true := findIdxA_any _ r j hr
        have hLHS : r.drop j = List.dropWhile isWs r := by
          have h2 : trimLine r = r.drop j := by rw [trimLine, hr]; rfl
          rw [ih, if_pos hany] at h2
          exact h2.symm
        simp only [Bool.false_eq_true, if_false, Option.map_some', Option.getD_some,
          List.drop_succ_cons]
        rw [hLHS]
        simp [List.any_cons, hnb, hany, List.dropWhile_cons, hb]
    · have hnb : (!isWs b) = true := by simp [Bool.eq_false_iff.mpr hb]
      rw [trimLine, findIdxA, hnb]
      simp [List.any_cons, hnb, List.dropWhile_cons, hb]

/-- The bad-character skip is positive for a non-empty pattern, so the
search position strictly advances. -/
theorem badCharTable_pos (pat : List Nat) (hp : pat ≠ []) (b : Nat) :
    0 < Replace.badCharTable pat b := by
  rw [Replace.badCharTable]
  match ((pat.take (pat.length - 1)).reverse).findIdx? (· == b) with
  | some j => exact Nat.succ_pos j
  | none => exact List.length_pos.mpr hp

/-- Soundness of the inner right-to-left comparison loop: success means
the pattern agrees with the haystack pointwise on the checked window. -/
theorem bmCheck_sound (h pat : List Nat) (i : Nat) :
    ∀ j, Replace.bmCheck h pat i j = true →
      ∀ k, k ≤ j → pat.getD k 0 = h.getD (i + k) 0 := by
  intro j
  induction j with
  | zero =>
    intro hc k hk
    interval_cases k
    rw [Replace.bmCheck] at hc
    simpa using eq_of_beq hc
  | succ j ih =>
    intro hc k hk
    rw [Replace.bmCheck] at hc
    by_cases he : pat.getD (j + 1) 0 == h.getD (i + (j + 1)) 0
    · rw [if_pos he] at hc
      rcases Nat.lt_or_ge k (j + 1) with hlt | hge
      · exact ih hc k (Nat.lt_succ_iff.mp hlt)
      · have : k = j + 1 := Nat.le_antisymm hk hge
        subst this
        exact eq_of_beq he
    · rw [if_neg he] at hc
      cases hc

/-- Pointwise agreement on a window yields slice equality. -/
theorem slice_eq_of_getD (h pat : List Nat) (i : Nat)
    (hle : i + pat.length ≤ h.length)
    (heq : ∀ k, k < pat.length → pat.getD k 0 = h.getD (i + k) 0) :
    (h.drop i).take pat.length = pat := by
  apply List.ext_getElem
  · simp only [List.length_take, List.length_drop]
    omega
  · intro n h1 h2
    have hn : n < pat.length := h2
    have hin : i + n < h.length := by omega
    have := heq n hn
    rw [List.getD_eq_getElem?_getD, List.getD_eq_getElem?_getD,
      List.getElem?_eq_getElem hn, List.getElem?_eq_getElem hin] at this
    simp only [Option.getD_some] at this
    rw [List.getElem_take, List.getElem_drop]
    exact this.symm

/-- Soundness invariant of the outer search loop: starting from an
accumulator of genuine, strictly increasing occurrences all below the
current position, the result again consists of genuine occurrences and is
strictly increasing. -/
theorem bmsearchGo_sound (h pat : List Nat) (hp : pat ≠ []) :
    ∀ fuel i acc,
      (∀ m ∈ acc, m + pat.length ≤ h.length ∧ (h.drop m).take pat.length = pat) →
      acc.Pairwise (· < ·) → (∀ m ∈ acc, m < i) →
      (∀ m ∈ Replace.bmsearchGo h pat fuel i acc,
          m + pat.length ≤ h.length ∧ (h.drop m).take pat.length = pat) ∧
        (Replace.bmsearchGo h pat fuel i acc).Pairwise (· < ·) := by
  intro fuel
  induction fuel with
  | zero => intro i acc hocc hpw _; exact ⟨hocc, hpw⟩
  | succ fuel ih =>
    intro i acc hocc hpw hlt
    rw [Replace.bmsearchGo]
    by_cases hcond : i < h.length - pat.length
    · rw [if_pos hcond]
      have hbound : i + pat.length ≤ h.length := by omega
      by_cases hchk : Replace.bmCheck h pat i (pat.length - 1) = true
      · simp only [hchk, if_pos]
        have hipos : 0 < pat.length := List.length_pos.mpr hp
        have hoccI : i + pat.length ≤ h.length ∧ (h.drop i).take pat.length = pat := by
          refine ⟨hbound, slice_eq_of_getD h pat i hbound ?_⟩
          intro k hk
          exact bmCheck_sound h pat i (pat.length - 1) hchk k (by omega)
        apply ih
        · intro m hm
          rcases List.mem_append.mp hm with hm2 | hm2
          · exact hocc m hm2
          · rw [List.mem_singleton.mp hm2]; exact hoccI
        · rw [List.pairwise_append]
          refine ⟨hpw, List.pairwise_singleton _ _, ?_⟩
          intro a ha b hb
          rw [List.mem_singleton.mp hb]
          exact hlt a ha
        · intro m hm
          have hshift := badCharTable_pos pat hp (h.getD (i + pat.length - 1) 0)
          rcases List.mem_append.mp hm with hm2 | hm2
          · have := hlt m hm2; omega
          · rw [List.mem_singleton.mp hm2]; omega
      · simp only [hchk, if_neg, Bool.false_eq_true, not_false_eq_true]
        apply ih _ _ hocc hpw
        intro m hm
        have hshift := badCharTable_pos pat hp (h.getD (i + pat.length - 1) 0)
        have := hlt m hm
        omega
    · rw [if_neg hcond]
      exact ⟨hocc, hpw⟩

/-- **C10.** `bmsearch` is sound: whenever it returns `some idxs`, the
list is non-empty and strictly increasing, and every reported index is a
genuine in-bounds occurrence of the pattern in the haystack. -/
theorem C10_bmsearch_sound (h pat idxs : List Nat)
    (hs : Replace.bmsearch h pat = some idxs) :
    idxs ≠ [] ∧ idxs.Pairwise (· < ·) ∧
      ∀ m ∈ idxs, m + pat.length ≤ h.length ∧ (h.drop m).take pat.length = pat := by
  rw [Replace.bmsearch] at hs
  by_cases hguard : (pat.length == 0 || decide (h.length < pat.length)) = true
  · rw [if_pos hguard] at hs; cases hs
  · rw [if_neg hguard] at hs
    have hp : pat ≠ [] := by
      intro he
      subst he
      simp at hguard
    simp only at hs
    by_cases hnil : (Replace.bmsearchGo h pat (h.length + 1) 0 [] == []) = true
    · rw [if_pos hnil] at hs; cases hs
    · rw [if_neg hnil] at hs
      injection hs with hs2
      subst hs2
      have hmain := bmsearchGo_sound h pat hp (h.length + 1) 0 []
        (by intro m hm; cases hm) List.Pairwise.nil (by intro m hm; cases hm)
      refine ⟨?_, hmain.2, hmain.1⟩
      intro he
      rw [he] at hnil
      exact hnil rfl

/-- Witness for C10: on haystack `[1, 2, 3]` and pattern `[2]`,
`bmsearch` reports `[1]`, and the soundness theorem yields that index 1 is
a genuine in-bounds occurrence. -/
theorem C10_witness :
    1 + ([2] : List Nat).length ≤ ([1, 2, 3] : List Nat).length ∧
      (([1, 2, 3] : List Nat).drop 1).take ([2] : List Nat).length = [2] :=
  (C10_bmsearch_sound [1, 2, 3] [2] [1] (by decide)).2.2 1 (by simp)

end Alog
